import Mathlib

/-!
Verification of the split-dataset loader `loadCsvMaybeParts`
(`js/utils/data-loader.js`) of the NYC_mobility repository.

The loader is embedded shallowly:

* the network is a pure environment `NetEnv` mapping a URL to the outcome
  of `d3.csv` (raw rows, before the per-row transform) or `d3.json`;
* the anonymous promise chain `d3.csv(path, row).catch(...)` built inside
  `loadCsvMaybeParts` becomes the pure function `csvRequest`, which also
  returns the list of network requests it initiates (its trace);
* `Promise.all` becomes `promiseAllSched`, parameterised by the order in
  which the individual part fetches complete, so that independence from
  completion order can be stated;
* the module-level `cache` (a JS `Map` from key to promise) becomes an
  association list inside `LoaderState`, and the whole synchronous body of
  `loadCsvMaybeParts` becomes one state transition (the JS body contains
  no `await`, so a single atomic transition is the faithful model).
-/

deriving instance DecidableEq for Except

/-- Outcome of `d3.json` as observed by the loader's manifest checks:
`truthy` is the JS truthiness of the parsed document (`!manifest`), and
`parts` is `some l` exactly when the document's `parts` field is an array
(`Array.isArray(manifest.parts)`), holding the listed part names. -/
structure JsonValue where
  truthy : Bool
  parts : Option (List String)
deriving DecidableEq

/-- The network as seen by the loader: `csv p` is the outcome of fetching
and parsing `p` with `d3.csv` before the row transform is applied, and
`json p` is the outcome of `d3.json p`. -/
structure NetEnv (Raw Err : Type) where
  csv : String → Except Err (List Raw)
  json : String → Except Err JsonValue

/-- A network request initiated by the loader. -/
inductive Request where
  | csvReq : String → Request
  | jsonReq : String → Request
deriving DecidableEq

/-- Semantics of `d3.csv(path, row)`: the raw rows fetched from `path`
with the row transform applied to each row. -/
def d3csv {Raw Row Err : Type} (env : NetEnv Raw Err) (path : String)
    (row : Raw → Row) : Except Err (List Row) :=
  (env.csv path).map (List.map row)

/-- Embedding of `path.replace(/\.csv$/i, "")` (line 17 of the loader):
a trailing `.csv` extension is stripped, case-insensitively; any other
ending is left untouched. -/
def stripCsvExt (path : String) : String :=
  let cs := path.toList
  if (cs.drop (cs.length - 4)).map Char.toLower = ['.', 'c', 's', 'v'] then
    String.mk (cs.take (cs.length - 4))
  else path

/-- Index of the last `/` in a list of characters, if any; embeds
`path.lastIndexOf("/")` restricted to the case where a slash exists. -/
def lastIndexOfSlash : List Char → Option Nat
  | [] => none
  | c :: cs =>
    match lastIndexOfSlash cs with
    | some i => some (i + 1)
    | none => if c = '/' then some 0 else none

/-- Embedding of
`path.includes("/") ? path.slice(0, path.lastIndexOf("/") + 1) : ""`
(line 26 of the loader): the directory part of `path` including the
trailing slash, or `""` when `path` has no slash. -/
def dirOf (path : String) : String :=
  match lastIndexOfSlash path.toList with
  | some i => String.mk (path.toList.take (i + 1))
  | none => ""

/-- The validity guard on the fetched manifest (line 22 of the loader):
`!manifest || !Array.isArray(manifest.parts) || manifest.parts.length === 0`. -/
def manifestInvalid (m : JsonValue) : Bool :=
  !m.truthy ||
    (match m.parts with
     | none => true
     | some ps => ps.isEmpty)

/-- Gathers a list of settled results, failing on the first error in list
order; used as the value of `Promise.all` when every input fulfils. -/
def collectOk {Err α : Type} : List (Except Err α) → Except Err (List α)
  | [] => .ok []
  | .error e :: _ => .error e
  | .ok a :: rest =>
    match collectOk rest with
    | .ok as => .ok (a :: as)
    | .error e => .error e

/-- Semantics of `Promise.all` under a completion schedule: `order` lists
the indices of the input promises in the order their fetches complete.
If some input rejects, the gather rejects (with the first rejection in
completion order when the schedule reaches it); if every input fulfils,
it fulfils with the values in input order, independently of `order`. -/
def promiseAllSched {Err α : Type} (order : List Nat)
    (xs : List (Except Err (List α))) : Except Err (List (List α)) :=
  match order.findSome? (fun i =>
      match xs.getD i (.ok []) with
      | .error e => some e
      | .ok _ => none) with
  | some e => .error e
  | none => collectOk xs

/-- The promise built by `d3.csv(path, row).catch(async (error) => ...)`
inside `loadCsvMaybeParts` (lines 16-33): the eventual outcome together
with the trace of network requests it initiates. On direct failure it
fetches the manifest at `stripCsvExt path ++ ".parts.json"`; a failed or
invalid manifest re-raises the original error; otherwise every part is
fetched (all initiated before any is awaited) from the dataset's
directory and the row arrays are concatenated in manifest order; any
failure inside the fallback re-raises the original error. -/
def csvRequest {Raw Row Err : Type} (env : NetEnv Raw Err) (order : List Nat)
    (path : String) (row : Raw → Row) :
    Except Err (List Row) × List Request :=
  match d3csv env path row with
  | .ok rows => (.ok rows, [.csvReq path])
  | .error error =>
    let manifestPath := stripCsvExt path ++ ".parts.json"
    match env.json manifestPath with
    | .error _ => (.error error, [.csvReq path, .jsonReq manifestPath])
    | .ok manifest =>
      if manifestInvalid manifest then
        (.error error, [.csvReq path, .jsonReq manifestPath])
      else
        let partPaths := (manifest.parts.getD []).map (fun part => dirOf path ++ part)
        match promiseAllSched order (partPaths.map (fun q => d3csv env q row)) with
        | .ok parts =>
          (.ok parts.flatten,
           .csvReq path :: .jsonReq manifestPath :: partPaths.map Request.csvReq)
        | .error _ =>
          (.error error,
           .csvReq path :: .jsonReq manifestPath :: partPaths.map Request.csvReq)

/-- The cache key expression of line 11:
`cacheKey ? path + "::" + cacheKey : path`, with JS string truthiness
(`undefined` and `""` are both falsy). -/
def cacheKeyOf (path : String) (cacheKey : Option String) : String :=
  match cacheKey with
  | some s => if s = "" then path else path ++ "::" ++ s
  | none => path

/-- State of the module-level cache: the `Map` from key to stored promise
(modelled as the promise's eventual outcome), the keys for which a fetch
sequence has been started, and the accumulated trace of all network
requests initiated so far. -/
structure LoaderState (Row Err : Type) where
  cache : List (String × Except Err (List Row))
  started : List String
  log : List Request
deriving DecidableEq

/-- The initial state: an empty cache, nothing started, nothing fetched. -/
def initState {Row Err : Type} : LoaderState Row Err := ⟨[], [], []⟩

/-- Embedding of `loadCsvMaybeParts(path, row, cacheKey)`: compute the
key; on a cache hit return the stored promise and leave the state alone;
otherwise build the request promise, store it, record the started fetch
sequence and its network trace. The JS body contains no `await`, so the
whole call is one synchronous state transition. -/
def loadCsvMaybeParts {Raw Row Err : Type} (env : NetEnv Raw Err)
    (order : List Nat) (s : LoaderState Row Err) (path : String)
    (row : Raw → Row) (cacheKey : Option String) :
    Except Err (List Row) × LoaderState Row Err :=
  let key := cacheKeyOf path cacheKey
  match List.lookup key s.cache with
  | some p => (p, s)
  | none =>
    let request := csvRequest env order path row
    (request.1, ⟨(key, request.1) :: s.cache, key :: s.started, s.log ++ request.2⟩)

/-- One call to `loadCsvMaybeParts`: its environment, part-completion
schedule, and the three JS arguments. -/
structure Call (Raw Row Err : Type) where
  env : NetEnv Raw Err
  order : List Nat
  path : String
  row : Raw → Row
  cacheKey : Option String

/-- The state after a call. -/
def callStep {Raw Row Err : Type} (s : LoaderState Row Err)
    (c : Call Raw Row Err) : LoaderState Row Err :=
  (loadCsvMaybeParts c.env c.order s c.path c.row c.cacheKey).2

/-- The promise returned by a call. -/
def callRet {Raw Row Err : Type} (s : LoaderState Row Err)
    (c : Call Raw Row Err) : Except Err (List Row) :=
  (loadCsvMaybeParts c.env c.order s c.path c.row c.cacheKey).1

/-- Runs a sequence of calls from a given state. -/
def runFrom {Raw Row Err : Type} (s : LoaderState Row Err)
    (cs : List (Call Raw Row Err)) : LoaderState Row Err :=
  cs.foldl callStep s

/-- Runs a sequence of calls from the initial (page-load) state; the
reachable states of the loader are exactly the values of `runCalls`. -/
def runCalls {Raw Row Err : Type} (cs : List (Call Raw Row Err)) :
    LoaderState Row Err :=
  runFrom initState cs

/-! ### Helper lemmas about the network semantics -/

theorem d3csv_error {Raw Row Err : Type} {env : NetEnv Raw Err} {path : String}
    {e : Err} (row : Raw → Row) (h : env.csv path = .error e) :
    d3csv env path row = .error e := by
  simp [d3csv, h, Except.map]

theorem d3csv_ok {Raw Row Err : Type} {env : NetEnv Raw Err} {path : String}
    {rs : List Raw} (row : Raw → Row) (h : env.csv path = .ok rs) :
    d3csv env path row = .ok (rs.map row) := by
  simp [d3csv, h, Except.map]

theorem collectOk_map_ok {Err α : Type} (l : List (List α)) :
    @collectOk Err (List α) (l.map Except.ok) = .ok l := by
  induction l with
  | nil => rfl
  | cons x xs ih => simp [collectOk, ih]

theorem collectOk_ok_mem {Err α : Type} {xs : List (Except Err (List α))}
    {l : List (List α)} (h : collectOk xs = .ok l) :
    ∀ q ∈ xs, ∃ a, q = .ok a := by
  induction xs generalizing l with
  | nil => intro q hq; cases hq
  | cons x rest ih =>
    intro q hq
    cases x with
    | error e => simp [collectOk] at h
    | ok a =>
      cases hq with
      | head => exact ⟨a, rfl⟩
      | tail _ hmem =>
        cases hr : collectOk rest with
        | error e => rw [collectOk, hr] at h; cases h
        | ok as => exact ih hr q hmem

theorem findSome?_none_of {α β : Type} (f : α → Option β) (l : List α)
    (h : ∀ i ∈ l, f i = none) : l.findSome? f = none := by
  induction l with
  | nil => rfl
  | cons a as ih =>
    rw [List.findSome?]
    rw [h a (List.mem_cons_self a as)]
    exact ih (fun i hi => h i (List.mem_cons_of_mem a hi))

theorem promiseAllSched_all_ok {Err α : Type} (order : List Nat)
    (l : List (List α)) :
    @promiseAllSched Err α order (l.map Except.ok) = .ok l := by
  have hget : ∀ i : Nat,
      (match (l.map (Except.ok : List α → Except Err (List α))).getD i (.ok []) with
       | .error e => some e
       | .ok _ => none) = (none : Option Err) := by
    intro i
    unfold List.getD
    cases hg : (l.map (Except.ok : List α → Except Err (List α))).get? i with
    | none => simp [hg, Option.getD]
    | some x =>
      have := List.get?_mem hg
      rcases List.mem_map.mp this with ⟨a, _, rfl⟩
      simp [hg, Option.getD]
  rw [promiseAllSched, findSome?_none_of _ _ (fun i _ => hget i),
    collectOk_map_ok]

theorem promiseAllSched_ne_ok {Err α : Type} {order : List Nat}
    {xs : List (Except Err (List α))} {q : Except Err (List α)} {e : Err}
    (hq : q ∈ xs) (he : q = .error e) :
    ∀ l, promiseAllSched order xs ≠ .ok l := by
  intro l h
  rw [promiseAllSched] at h
  cases hf : xs.getD 0 (.ok []) with
  | error _ =>
    revert h
    cases hs : order.findSome? (fun i =>
        match xs.getD i (.ok []) with
        | .error e => some e
        | .ok _ => none) with
    | some e' => intro h; cases h
    | none =>
      intro h
      rcases collectOk_ok_mem h q hq with ⟨a, ha⟩
      rw [he] at ha; cases ha
  | ok _ =>
    revert h
    cases hs : order.findSome? (fun i =>
        match xs.getD i (.ok []) with
        | .error e => some e
        | .ok _ => none) with
    | some e' => intro h; cases h
    | none =>
      intro h
      rcases collectOk_ok_mem h q hq with ⟨a, ha⟩
      rw [he] at ha; cases ha

/-! ### Helper lemmas about the cache -/

theorem lookup_none_iff {β : Type} (l : List (String × β)) (k : String) :
    List.lookup k l = none ↔ k ∉ l.map Prod.fst := by
  induction l with
  | nil => simp [List.lookup]
  | cons p rest ih =>
    obtain ⟨k', v⟩ := p
    rw [List.lookup]
    cases hbeq : k == k' with
    | true =>
      have heq : k = k' := eq_of_beq hbeq
      subst heq
      simp
    | false =>
      have hne : ¬k = k' := fun h => by simp [h] at hbeq
      simp [ih, hne]

theorem lookup_cons_ne {β : Type} {k' k : String} (v : β)
    (l : List (String × β)) (h : k' ≠ k) :
    List.lookup k ((k', v) :: l) = List.lookup k l := by
  rw [List.lookup]
  have hb : (k == k') = false := beq_eq_false_iff_ne.mpr (Ne.symm h)
  rw [hb]

theorem loadCsvMaybeParts_hit {Raw Row Err : Type} (env : NetEnv Raw Err)
    (order : List Nat) (s : LoaderState Row Err) (path : String)
    (row : Raw → Row) (cacheKey : Option String) {r : Except Err (List Row)}
    (h : List.lookup (cacheKeyOf path cacheKey) s.cache = some r) :
    loadCsvMaybeParts env order s path row cacheKey = (r, s) := by
  simp [loadCsvMaybeParts, h]

theorem loadCsvMaybeParts_miss {Raw Row Err : Type} (env : NetEnv Raw Err)
    (order : List Nat) (s : LoaderState Row Err) (path : String)
    (row : Raw → Row) (cacheKey : Option String)
    (h : List.lookup (cacheKeyOf path cacheKey) s.cache = none) :
    loadCsvMaybeParts env order s path row cacheKey =
      ((csvRequest env order path row).1,
       ⟨(cacheKeyOf path cacheKey, (csvRequest env order path row).1) :: s.cache,
        cacheKeyOf path cacheKey :: s.started,
        s.log ++ (csvRequest env order path row).2⟩) := by
  simp [loadCsvMaybeParts, h]

theorem lookup_callStep_self {Raw Row Err : Type} (s : LoaderState Row Err)
    (c : Call Raw Row Err) :
    List.lookup (cacheKeyOf c.path c.cacheKey) (callStep s c).cache =
      some (callRet s c) := by
  cases h : List.lookup (cacheKeyOf c.path c.cacheKey) s.cache with
  | some r =>
    rw [callStep, callRet, loadCsvMaybeParts_hit c.env c.order s c.path c.row c.cacheKey h]
    exact h
  | none =>
    rw [callStep, callRet, loadCsvMaybeParts_miss c.env c.order s c.path c.row c.cacheKey h]
    simp [List.lookup]

theorem lookup_callStep_preserve {Raw Row Err : Type} (s : LoaderState Row Err)
    (c : Call Raw Row Err) (k : String) (r : Except Err (List Row))
    (h : List.lookup k s.cache = some r) :
    List.lookup k (callStep s c).cache = some r := by
  cases hc : List.lookup (cacheKeyOf c.path c.cacheKey) s.cache with
  | some r' =>
    rw [callStep, loadCsvMaybeParts_hit c.env c.order s c.path c.row c.cacheKey hc]
    exact h
  | none =>
    have hne : cacheKeyOf c.path c.cacheKey ≠ k := by
      intro he
      rw [he, h] at hc
      cases hc
    rw [callStep, loadCsvMaybeParts_miss c.env c.order s c.path c.row c.cacheKey hc]
    rw [lookup_cons_ne _ _ hne]
    exact h

theorem lookup_runFrom_preserve {Raw Row Err : Type} (s : LoaderState Row Err)
    (cs : List (Call Raw Row Err)) (k : String) (r : Except Err (List Row))
    (h : List.lookup k s.cache = some r) :
    List.lookup k (runFrom s cs).cache = some r := by
  induction cs generalizing s with
  | nil => exact h
  | cons c rest ih =>
    rw [runFrom, List.foldl_cons]
    exact ih (callStep s c) (lookup_callStep_preserve s c k r h)

/-- The cache invariant: the started-sequence log lists exactly the cached
keys, and cached keys are pairwise distinct. -/
def GoodState {Row Err : Type} (s : LoaderState Row Err) : Prop :=
  s.started = s.cache.map Prod.fst ∧ (s.cache.map Prod.fst).Nodup

theorem goodState_callStep {Raw Row Err : Type} (s : LoaderState Row Err)
    (c : Call Raw Row Err) (h : GoodState s) : GoodState (callStep s c) := by
  cases hc : List.lookup (cacheKeyOf c.path c.cacheKey) s.cache with
  | some r =>
    rw [callStep, loadCsvMaybeParts_hit c.env c.order s c.path c.row c.cacheKey hc]
    exact h
  | none =>
    rw [callStep, loadCsvMaybeParts_miss c.env c.order s c.path c.row c.cacheKey hc]
    refine ⟨?_, ?_⟩
    · simp [h.1]
    · simp only [List.map_cons]
      exact List.nodup_cons.mpr ⟨(lookup_none_iff s.cache _).mp hc, h.2⟩

theorem goodState_runFrom {Raw Row Err : Type} (s : LoaderState Row Err)
    (cs : List (Call Raw Row Err)) (h : GoodState s) : GoodState (runFrom s cs) := by
  induction cs generalizing s with
  | nil => exact h
  | cons c rest ih =>
    rw [runFrom, List.foldl_cons]
    exact ih (callStep s c) (goodState_callStep s c h)

theorem goodState_runCalls {Raw Row Err : Type} (cs : List (Call Raw Row Err)) :
    GoodState (runCalls cs) :=
  goodState_runFrom initState cs ⟨rfl, List.nodup_nil⟩

theorem started_count_le_one {Row Err : Type} {s : LoaderState Row Err}
    (h : GoodState s) (k : String) : s.started.count k ≤ 1 := by
  rw [h.1]
  exact List.nodup_iff_count_le_one.mp h.2 k

/-! ### Helper lemmas about path manipulation -/

theorem string_toList_append (a b : String) :
    (a ++ b).toList = a.toList ++ b.toList := by
  simp [String.toList, String.data_append]

theorem stripCsvExt_append_of_ext (base ext : String)
    (hlen : ext.toList.length = 4)
    (hext : ext.toList.map Char.toLower = ['.', 'c', 's', 'v']) :
    stripCsvExt (base ++ ext) = base := by
  rw [stripCsvExt]
  rw [string_toList_append]
  have hlen' : (base.toList ++ ext.toList).length - 4 = base.toList.length := by
    rw [List.length_append, hlen]
    omega
  rw [hlen']
  rw [List.drop_left, List.take_left, hext, if_pos rfl]
  cases base
  rfl

theorem stripCsvExt_csv (base : String) : stripCsvExt (base ++ ".csv") = base :=
  stripCsvExt_append_of_ext base ".csv" (by decide) (by decide)

theorem stripCsvExt_CSV (base : String) : stripCsvExt (base ++ ".CSV") = base :=
  stripCsvExt_append_of_ext base ".CSV" (by decide) (by decide)

theorem stripCsvExt_of_not_csv (p : String)
    (h : (p.toList.drop (p.toList.length - 4)).map Char.toLower ≠ ['.', 'c', 's', 'v']) :
    stripCsvExt p = p := by
  rw [stripCsvExt, if_neg h]

theorem lastIndexOfSlash_none {l : List Char} (h : ∀ c ∈ l, c ≠ '/') :
    lastIndexOfSlash l = none := by
  induction l with
  | nil => rfl
  | cons c cs ih =>
    rw [lastIndexOfSlash, ih (fun x hx => h x (List.mem_cons_of_mem c hx))]
    simp [h c (List.mem_cons_self c cs)]

theorem lastIndexOfSlash_append {d f : List Char} (h : ∀ c ∈ f, c ≠ '/') :
    lastIndexOfSlash (d ++ '/' :: f) = some d.length := by
  induction d with
  | nil =>
    rw [List.nil_append, lastIndexOfSlash, lastIndexOfSlash_none h]
    simp
  | cons c cs ih =>
    rw [List.cons_append, lastIndexOfSlash, ih]
    rfl

theorem dirOf_no_slash {p : String} (h : ∀ c ∈ p.toList, c ≠ '/') :
    dirOf p = "" := by
  rw [dirOf, lastIndexOfSlash_none h]

theorem dirOf_append (d f : String) (h : ∀ c ∈ f.toList, c ≠ '/') :
    dirOf (d ++ "/" ++ f) = d ++ "/" := by
  have hl : (d ++ "/" ++ f).toList = d.toList ++ '/' :: f.toList := by
    rw [string_toList_append, string_toList_append,
      show ("/" : String).toList = ['/'] from by decide]
    simp
  rw [dirOf, hl, lastIndexOfSlash_append h]
  have htake : (d.toList ++ '/' :: f.toList).take (d.toList.length + 1) =
      d.toList ++ ['/'] := by
    have h1 : d.toList ++ '/' :: f.toList = (d.toList ++ ['/']) ++ f.toList := by
      simp
    have h2 : d.toList.length + 1 = (d.toList ++ ['/']).length := by
      simp
    rw [h1, h2, List.take_left]
  show String.mk ((d.toList ++ '/' :: f.toList).take (d.toList.length + 1)) = d ++ "/"
  rw [htake]
  apply String.ext
  rw [String.data_append]
  show d.toList ++ ['/'] = d.data ++ ("/" : String).data
  rw [show ("/" : String).data = ['/'] from by decide]
  rfl

theorem string_ne_append_append (p a b : String) (h : a.toList ≠ []) :
    p ≠ p ++ a ++ b := by
  intro he
  have hlist : p.toList = p.toList ++ a.toList ++ b.toList := by
    conv_lhs => rw [he]
    rw [string_toList_append, string_toList_append]
  have hlen := congrArg List.length hlist
  simp only [List.length_append] at hlen
  have hpos : 0 < a.toList.length := List.length_pos.mpr h
  omega

/-! ### Helper lemmas about the request computation -/

theorem csvRequest_error_or_ok {Raw Row Err : Type} (env : NetEnv Raw Err)
    (order : List Nat) (path : String) (row : Raw → Row) (e : Err)
    (hdirect : env.csv path = .error e) :
    (csvRequest env order path row).1 = .error e ∨
      ∃ rows, (csvRequest env order path row).1 = .ok rows := by
  unfold csvRequest
  rw [d3csv_error row hdirect]
  dsimp only
  split
  · left; rfl
  · split
    · left; rfl
    · split
      · right; exact ⟨_, rfl⟩
      · left; rfl

theorem csvRequest_trace_fallback {Raw Row Err : Type} (env : NetEnv Raw Err)
    (order : List Nat) (path : String) (row : Raw → Row) (e : Err)
    (hdirect : env.csv path = .error e) :
    (csvRequest env order path row).2.take 2 =
      [.csvReq path, .jsonReq (stripCsvExt path ++ ".parts.json")] := by
  unfold csvRequest
  rw [d3csv_error row hdirect]
  dsimp only
  split
  · rfl
  · split
    · rfl
    · split
      · rfl
      · rfl

theorem csvRequest_fallback_eq {Raw Row Err : Type} (env : NetEnv Raw Err)
    (order : List Nat) (path : String) (row : Raw → Row) (e : Err)
    (m : JsonValue) (ps : List String)
    (hdirect : env.csv path = .error e)
    (hjson : env.json (stripCsvExt path ++ ".parts.json") = .ok m)
    (htruthy : m.truthy = true) (hparts : m.parts = some ps) (hne : ps ≠ []) :
    csvRequest env order path row =
      match promiseAllSched order ((ps.map fun part => dirOf path ++ part).map
          fun q => d3csv env q row) with
      | .ok parts =>
        (.ok parts.flatten,
         .csvReq path :: .jsonReq (stripCsvExt path ++ ".parts.json") ::
           (ps.map fun part => dirOf path ++ part).map Request.csvReq)
      | .error _ =>
        (.error e,
         .csvReq path :: .jsonReq (stripCsvExt path ++ ".parts.json") ::
           (ps.map fun part => dirOf path ++ part).map Request.csvReq) := by
  have hempty : ps.isEmpty = false := by
    cases ps with
    | nil => exact absurd rfl hne
    | cons a as => rfl
  have hinv : manifestInvalid m = false := by
    rw [manifestInvalid, htruthy, hparts]
    simp [hempty]
  unfold csvRequest
  rw [d3csv_error row hdirect]
  dsimp only
  rw [hjson]
  simp only [hinv, hparts, Option.getD_some, Bool.false_eq_true, if_false]

/-! ### Concrete networks used by witnesses and counterexamples -/

/-- A network where every fetch fails. -/
def envFail : NetEnv Nat Nat := ⟨fun _ => .error 0, fun _ => .error 0⟩

/-- A network where the direct dataset fails with error 3 and the manifest
fetch fails with the distinct error 9. -/
def envC1 : NetEnv Nat Nat := ⟨fun _ => .error 3, fun _ => .error 9⟩

/-- A network where `data.csv` is absent but its manifest and the two parts
`p1.csv` (2 rows) and `p2.csv` (3 rows) are served. -/
def envParts : NetEnv Nat Nat :=
  ⟨fun p =>
      if p = "p1.csv" then .ok [1, 2]
      else if p = "p2.csv" then .ok [3, 4, 5]
      else .error 0,
   fun p =>
      if p = "data.parts.json" then .ok ⟨true, some ["p1.csv", "p2.csv"]⟩
      else .error 0⟩

/-- A network where only the direct dataset `data.csv` is present. -/
def envOk : NetEnv Nat Nat :=
  ⟨fun p => if p = "data.csv" then .ok [1, 2, 3] else .error 0,
   fun _ => .error 0⟩

/-- A network serving a dataset split inside the subdirectory `data/`. -/
def envDir : NetEnv Nat Nat :=
  ⟨fun p => if p = "data/part1.csv" then .ok [9] else .error 0,
   fun p =>
      if p = "data/file.parts.json" then .ok ⟨true, some ["part1.csv"]⟩
      else .error 0⟩

/-! ### The claims -/

/-- C1: if the direct fetch-and-parse of a dataset path fails with error
`e`, then whenever the returned promise rejects — whatever went wrong in
the fallback (manifest fetch failed, manifest structurally invalid, or a
part fetch failed) — it rejects with exactly the original error `e`,
never with a manifest-specific or part-specific error. -/
theorem fallback_masks_errors {Raw Row Err : Type} (env : NetEnv Raw Err)
    (order : List Nat) (path : String) (row : Raw → Row) (e e' : Err)
    (hdirect : env.csv path = .error e)
    (hfail : (csvRequest env order path row).1 = .error e') :
    e' = e := by
  rcases csvRequest_error_or_ok env order path row e hdirect with h | ⟨rows, h⟩
  · rw [h] at hfail
    injection hfail with h2
    exact h2.symm
  · rw [h] at hfail
    exact Except.noConfusion hfail

/-- Witness for C1: with direct error 3 and manifest error 9, the promise
rejects with 3, the original direct error. -/
theorem fallback_masks_errors_witness :
    envC1.csv "data.csv" = .error 3 ∧
    (csvRequest envC1 [] "data.csv" (fun n : Nat => n)).1 = .error 3 ∧
    (3 : Nat) = 3 :=
  ⟨rfl, rfl, fallback_masks_errors envC1 [] "data.csv" (fun n => n) 3 3 rfl rfl⟩

/-- C8: when the direct fetch-and-parse succeeds, the promise resolves to
exactly the direct result and the only network request made is the direct
one: the manifest path is never fetched and no part file is requested. -/
theorem direct_success_frame {Raw Row Err : Type} (env : NetEnv Raw Err)
    (order : List Nat) (path : String) (row : Raw → Row) (rs : List Raw)
    (h : env.csv path = .ok rs) :
    csvRequest env order path row = (.ok (rs.map row), [.csvReq path]) := by
  unfold csvRequest
  rw [d3csv_ok row h]

/-- Witness for C8: `data.csv` is served directly, the result is its three
rows, and the trace is the single direct request. -/
theorem direct_success_frame_witness :
    envOk.csv "data.csv" = .ok [1, 2, 3] ∧
    csvRequest envOk [] "data.csv" (fun n : Nat => n) =
      (.ok [1, 2, 3], [.csvReq "data.csv"]) := by
  refine ⟨by decide, ?_⟩
  have h := direct_success_frame envOk [] "data.csv" (fun n => n) [1, 2, 3] (by decide)
  exact h.trans (by decide)

theorem csvRequest_fallback_trace {Raw Row Err : Type} (env : NetEnv Raw Err)
    (order : List Nat) (path : String) (row : Raw → Row) (e : Err)
    (m : JsonValue) (ps : List String)
    (hdirect : env.csv path = .error e)
    (hjson : env.json (stripCsvExt path ++ ".parts.json") = .ok m)
    (htruthy : m.truthy = true) (hparts : m.parts = some ps) (hne : ps ≠ []) :
    (csvRequest env order path row).2 =
      .csvReq path :: .jsonReq (stripCsvExt path ++ ".parts.json") ::
        (ps.map fun part => dirOf path ++ part).map Request.csvReq := by
  rw [csvRequest_fallback_eq env order path row e m ps hdirect hjson htruthy hparts hne]
  cases promiseAllSched order ((ps.map fun part => dirOf path ++ part).map
      fun q => d3csv env q row) with
  | ok parts => rfl
  | error e₂ => rfl

theorem csvRequest_all_parts_ok {Raw Row Err : Type} (env : NetEnv Raw Err)
    (order : List Nat) (path : String) (row : Raw → Row) (e : Err)
    (m : JsonValue) (ps : List String) (f : String → List Raw)
    (hdirect : env.csv path = .error e)
    (hjson : env.json (stripCsvExt path ++ ".parts.json") = .ok m)
    (htruthy : m.truthy = true) (hparts : m.parts = some ps) (hne : ps ≠ [])
    (hok : ∀ q ∈ ps, env.csv (dirOf path ++ q) = .ok (f q)) :
    (csvRequest env order path row).1 =
      .ok ((ps.map fun q => (f q).map row).flatten) := by
  have hxs : (ps.map fun part => dirOf path ++ part).map (fun q => d3csv env q row)
      = (ps.map fun q => (f q).map row).map Except.ok := by
    rw [List.map_map, List.map_map]
    apply List.map_congr_left
    intro q hq
    simp only [Function.comp]
    exact d3csv_ok row (hok q hq)
  rw [csvRequest_fallback_eq env order path row e m ps hdirect hjson htruthy hparts hne,
    hxs, promiseAllSched_all_ok]

theorem csvRequest_part_error {Raw Row Err : Type} (env : NetEnv Raw Err)
    (order : List Nat) (path : String) (row : Raw → Row) (e : Err)
    (m : JsonValue) (ps : List String) (q : String) (e' : Err)
    (hdirect : env.csv path = .error e)
    (hjson : env.json (stripCsvExt path ++ ".parts.json") = .ok m)
    (htruthy : m.truthy = true) (hparts : m.parts = some ps) (hne : ps ≠ [])
    (hq : q ∈ ps) (he : env.csv (dirOf path ++ q) = .error e') :
    (csvRequest env order path row).1 = .error e := by
  have hmem : d3csv env (dirOf path ++ q) row ∈
      (ps.map fun part => dirOf path ++ part).map fun q => d3csv env q row :=
    List.mem_map.mpr ⟨dirOf path ++ q, List.mem_map.mpr ⟨q, hq, rfl⟩, rfl⟩
  have herr : d3csv env (dirOf path ++ q) row = .error e' := d3csv_error row he
  rw [csvRequest_fallback_eq env order path row e m ps hdirect hjson htruthy hparts hne]
  cases hp : promiseAllSched order ((ps.map fun part => dirOf path ++ part).map
      fun q => d3csv env q row) with
  | ok parts => exact absurd hp (promiseAllSched_ne_ok hmem herr parts)
  | error e₂ => rfl

/-- C2: on direct failure with a valid manifest, the loader fetches every
listed part, resolves to the concatenation of the parts' row arrays in the
manifest's declared order regardless of the order in which the part
fetches complete (the schedule `order` is arbitrary), and returns no
partial result: if any part fails, the whole fallback fails. -/
theorem parts_in_manifest_order {Raw Row Err : Type} (env : NetEnv Raw Err)
    (order : List Nat) (path : String) (row : Raw → Row) (e : Err)
    (m : JsonValue) (ps : List String) (f : String → List Raw)
    (hdirect : env.csv path = .error e)
    (hjson : env.json (stripCsvExt path ++ ".parts.json") = .ok m)
    (htruthy : m.truthy = true) (hparts : m.parts = some ps) (hne : ps ≠ []) :
    (∀ q ∈ ps, Request.csvReq (dirOf path ++ q) ∈ (csvRequest env order path row).2) ∧
    ((∀ q ∈ ps, env.csv (dirOf path ++ q) = .ok (f q)) →
      (csvRequest env order path row).1 =
        .ok ((ps.map fun q => (f q).map row).flatten)) ∧
    (∀ q ∈ ps, ∀ e', env.csv (dirOf path ++ q) = .error e' →
      (csvRequest env order path row).1 = .error e) := by
  refine ⟨?_, ?_, ?_⟩
  · intro q hq
    rw [csvRequest_fallback_trace env order path row e m ps hdirect hjson htruthy hparts hne]
    refine List.mem_cons_of_mem _ (List.mem_cons_of_mem _ ?_)
    rw [List.map_map]
    exact List.mem_map.mpr ⟨q, hq, rfl⟩
  · intro hok
    exact csvRequest_all_parts_ok env order path row e m ps f hdirect hjson htruthy
      hparts hne hok
  · intro q hq e' he
    exact csvRequest_part_error env order path row e m ps q e' hdirect hjson htruthy
      hparts hne hq he

/-- Witness for C2: `data.csv` 404s, the manifest lists `p1.csv` then
`p2.csv`, the completion schedule `[1, 0]` makes `p2.csv` finish first,
and the result is still rows of `p1.csv` followed by rows of `p2.csv`. -/
theorem parts_in_manifest_order_witness :
    envParts.csv "data.csv" = .error 0 ∧
    envParts.json (stripCsvExt "data.csv" ++ ".parts.json") =
      .ok ⟨true, some ["p1.csv", "p2.csv"]⟩ ∧
    (csvRequest envParts [1, 0] "data.csv" (fun n : Nat => n)).1 =
      .ok [1, 2, 3, 4, 5] := by
  refine ⟨by decide, by decide, ?_⟩
  have h := (parts_in_manifest_order envParts [1, 0] "data.csv" (fun n => n) 0
      ⟨true, some ["p1.csv", "p2.csv"]⟩ ["p1.csv", "p2.csv"]
      (fun q => if q = "p1.csv" then [1, 2] else [3, 4, 5])
      (by decide) (by decide) (by decide) (by decide) (by decide)).2.1 (by decide)
  exact h.trans (by decide)

/-- C7: every part listed in a valid manifest is fetched from
`dirOf path ++ part`, where `dirOf` yields `dirname(path) ++ "/"` when the
path has a directory component and `""` (part name used as-is) when it
does not, and each part is parsed with the same row transform as the
original dataset. -/
theorem parts_resolved_relative {Raw Row Err : Type} (env : NetEnv Raw Err)
    (order : List Nat) (path : String) (row : Raw → Row) (e : Err)
    (m : JsonValue) (ps : List String)
    (hdirect : env.csv path = .error e)
    (hjson : env.json (stripCsvExt path ++ ".parts.json") = .ok m)
    (htruthy : m.truthy = true) (hparts : m.parts = some ps) (hne : ps ≠ []) :
    ((csvRequest env order path row).2 =
      .csvReq path :: .jsonReq (stripCsvExt path ++ ".parts.json") ::
        ps.map (fun part => .csvReq (dirOf path ++ part))) ∧
    ((∀ c ∈ path.toList, c ≠ '/') → dirOf path = "") ∧
    (∀ d fn, path = d ++ "/" ++ fn → (∀ c ∈ fn.toList, c ≠ '/') →
      dirOf path = d ++ "/") ∧
    (∀ g : String → List Raw,
      (∀ q ∈ ps, env.csv (dirOf path ++ q) = .ok (g q)) →
      (csvRequest env order path row).1 =
        .ok ((ps.map fun q => (g q).map row).flatten)) := by
  refine ⟨?_, ?_, ?_, ?_⟩
  · rw [csvRequest_fallback_trace env order path row e m ps hdirect hjson htruthy hparts hne,
      List.map_map]
    rfl
  · intro h
    exact dirOf_no_slash h
  · intro d fn hdec hfn
    rw [hdec]
    exact dirOf_append d fn hfn
  · intro g hok
    exact csvRequest_all_parts_ok env order path row e m ps g hdirect hjson htruthy
      hparts hne hok

/-- Witness for C7: the dataset `data/file.csv` fails directly, its
manifest lists `part1.csv`, and the part is fetched from
`data/part1.csv`, i.e. relative to the `data/` directory. -/
theorem parts_resolved_relative_witness :
    envDir.csv "data/file.csv" = .error 0 ∧
    envDir.json (stripCsvExt "data/file.csv" ++ ".parts.json") =
      .ok ⟨true, some ["part1.csv"]⟩ ∧
    (csvRequest envDir [] "data/file.csv" (fun n : Nat => n)).2 =
      [.csvReq "data/file.csv", .jsonReq "data/file.parts.json",
       .csvReq "data/part1.csv"] ∧
    dirOf "data/file.csv" = "data/" := by
  refine ⟨by decide, by decide, ?_, ?_⟩
  · have h := (parts_resolved_relative envDir [] "data/file.csv" (fun n => n) 0
        ⟨true, some ["part1.csv"]⟩ ["part1.csv"]
        (by decide) (by decide) (by decide) (by decide) (by decide)).1
    exact h.trans (by decide)
  · have h := (parts_resolved_relative envDir [] "data/file.csv" (fun n => n) 0
        ⟨true, some ["part1.csv"]⟩ ["part1.csv"]
        (by decide) (by decide) (by decide) (by decide) (by decide)).2.2.1
        "data" "file.csv" (by decide) (by decide)
    exact h.trans (by decide)

/-- C6 counterexample: for the dataset path "data.tsv" — a tabular
extension other than ".csv" — the loader derives the manifest path
"data.tsv.parts.json", not the base-with-extension-stripped path
"data.parts.json" that the claim prescribes. -/
theorem manifest_path_cex :
    (csvRequest envFail [] "data.tsv" (fun n : Nat => n)).2 =
      [.csvReq "data.tsv", .jsonReq "data.tsv.parts.json"] ∧
    "data.tsv.parts.json" ≠ "data.parts.json" :=
  ⟨by decide, by decide⟩

/-- C6 (amended): on direct failure the loader derives the manifest path
by appending ".parts.json" after stripping a trailing ".csv" extension
case-insensitively; for a path whose last four characters are not ".csv"
in any casing (any other extension), nothing is stripped and the manifest
path is the full path followed by ".parts.json". -/
theorem manifest_path_amended {Raw Row Err : Type} (env : NetEnv Raw Err)
    (order : List Nat) (row : Raw → Row) :
    (∀ base e, env.csv (base ++ ".csv") = .error e →
      (csvRequest env order (base ++ ".csv") row).2.take 2 =
        [.csvReq (base ++ ".csv"), .jsonReq (base ++ ".parts.json")]) ∧
    (∀ base e, env.csv (base ++ ".CSV") = .error e →
      (csvRequest env order (base ++ ".CSV") row).2.take 2 =
        [.csvReq (base ++ ".CSV"), .jsonReq (base ++ ".parts.json")]) ∧
    (∀ p e, env.csv p = .error e →
      (p.toList.drop (p.toList.length - 4)).map Char.toLower ≠ ['.', 'c', 's', 'v'] →
      (csvRequest env order p row).2.take 2 =
        [.csvReq p, .jsonReq (p ++ ".parts.json")]) := by
  refine ⟨?_, ?_, ?_⟩
  · intro base e h
    rw [csvRequest_trace_fallback env order (base ++ ".csv") row e h, stripCsvExt_csv]
  · intro base e h
    rw [csvRequest_trace_fallback env order (base ++ ".CSV") row e h, stripCsvExt_CSV]
  · intro p e h hnot
    rw [csvRequest_trace_fallback env order p row e h, stripCsvExt_of_not_csv p hnot]

/-- Witness for the amended C6: "data" ++ ".csv" yields the manifest path
"data" ++ ".parts.json", while "data.tsv" yields
"data.tsv" ++ ".parts.json". -/
theorem manifest_path_amended_witness :
    envFail.csv ("data" ++ ".csv") = .error 0 ∧
    (csvRequest envFail [] ("data" ++ ".csv") (fun n : Nat => n)).2.take 2 =
      [.csvReq ("data" ++ ".csv"), .jsonReq ("data" ++ ".parts.json")] ∧
    envFail.csv "data.tsv" = .error 0 ∧
    (csvRequest envFail [] "data.tsv" (fun n : Nat => n)).2.take 2 =
      [.csvReq "data.tsv", .jsonReq ("data.tsv" ++ ".parts.json")] :=
  ⟨rfl, (manifest_path_amended envFail [] (fun n : Nat => n)).1 "data" 0 rfl,
   rfl, (manifest_path_amended envFail [] (fun n : Nat => n)).2.2 "data.tsv" 0 rfl
     (by decide)⟩

/-- C5 counterexample: with the empty-string suffix — a given suffix —
the derived key is the bare path, not the path joined to the suffix by
the separator "::". -/
theorem cache_key_cex :
    cacheKeyOf "data.csv" (some "") = "data.csv" ∧
    cacheKeyOf "data.csv" (some "") ≠ "data.csv" ++ "::" ++ "" :=
  ⟨rfl, by decide⟩

/-- C5 (amended): the cache key equals the path when no suffix — or the
empty-string suffix, which is falsy — is given, and equals
`path ++ "::" ++ suffix` when a non-empty suffix is given; consequently a
call with no suffix and a call with suffix "variantB" derive distinct
keys, and running both from the initial state starts two independent
fetch sequences, one per key. -/
theorem cache_key_amended {Raw Row Err : Type} (path s : String)
    (env1 env2 : NetEnv Raw Err) (o1 o2 : List Nat) (row1 row2 : Raw → Row) :
    cacheKeyOf path none = path ∧
    (s ≠ "" → cacheKeyOf path (some s) = path ++ "::" ++ s) ∧
    cacheKeyOf path none ≠ cacheKeyOf path (some "variantB") ∧
    ((loadCsvMaybeParts env2 o2
        (loadCsvMaybeParts env1 o1 initState path row1 none).2
        path row2 (some "variantB")).2).started =
      [cacheKeyOf path (some "variantB"), cacheKeyOf path none] := by
  have hvb : cacheKeyOf path (some "variantB") = path ++ "::" ++ "variantB" := by
    simp [cacheKeyOf]
  have hne2 : cacheKeyOf path none ≠ cacheKeyOf path (some "variantB") := by
    rw [hvb]
    exact string_ne_append_append path "::" "variantB" (by decide)
  refine ⟨rfl, ?_, hne2, ?_⟩
  · intro h
    simp [cacheKeyOf, h]
  · have hl1 : List.lookup (cacheKeyOf path none)
        (initState : LoaderState Row Err).cache = none := rfl
    have hs1 := loadCsvMaybeParts_miss env1 o1 (initState : LoaderState Row Err)
      path row1 none hl1
    have hl2 : List.lookup (cacheKeyOf path (some "variantB"))
        ((loadCsvMaybeParts env1 o1 initState path row1 none).2).cache = none := by
      rw [hs1]
      exact (lookup_cons_ne _ _ (fun he => hne2 he)).trans rfl
    rw [loadCsvMaybeParts_miss env2 o2 _ path row2 (some "variantB") hl2]
    rw [hs1]
    rfl

/-- Witness for the amended C5 at path "data.csv" and suffix "variantB". -/
theorem cache_key_amended_witness :
    cacheKeyOf "data.csv" none = "data.csv" ∧
    cacheKeyOf "data.csv" (some "variantB") = "data.csv" ++ "::" ++ "variantB" :=
  ⟨(cache_key_amended "data.csv" "variantB" envFail envFail [] []
      (fun n : Nat => n) (fun n : Nat => n)).1,
   (cache_key_amended "data.csv" "variantB" envFail envFail [] []
      (fun n : Nat => n) (fun n : Nat => n)).2.1 (by decide)⟩

/-- The first colliding call of C9: path "a::b", no suffix. -/
def callP : Call Nat Nat Nat := ⟨envFail, [], "a::b", fun n => n, none⟩

/-- The second colliding call of C9: path "a", suffix "b". -/
def callQ : Call Nat Nat Nat := ⟨envFail, [], "a", fun n => n, some "b"⟩

/-- C9: the key derivation is not injective over (path, suffix) pairs:
path "a::b" with no suffix and path "a" with suffix "b" are distinct
references deriving the same key, so the two calls share one cache entry
and one fetch sequence — after both calls exactly one sequence was
started, and the second call returns the first call's promise with the
state unchanged. -/
theorem cache_key_not_injective :
    cacheKeyOf "a::b" none = cacheKeyOf "a" (some "b") ∧
    ("a::b", (none : Option String)) ≠ ("a", some "b") ∧
    (runCalls [callP, callQ]).started = ["a::b"] ∧
    callRet (callStep initState callP) callQ = callRet initState callP ∧
    callStep (callStep initState callP) callQ = callStep initState callP :=
  ⟨by decide, by decide, by decide, by decide, by decide⟩

/-- C10: a call with the empty-string suffix derives the same cache key
as a call with no suffix at all — the suffix is tested for truthiness,
not presence — so the two calls share one cache entry and one fetch
sequence: after a first call with suffix "", a second call with no
suffix returns the first call's stored promise and leaves the state
(and hence the request log) unchanged. -/
theorem empty_suffix_shares_entry {Raw Row Err : Type} (path : String)
    (env1 env2 : NetEnv Raw Err) (o1 o2 : List Nat) (row1 row2 : Raw → Row)
    (s : LoaderState Row Err) :
    cacheKeyOf path (some "") = cacheKeyOf path none ∧
    loadCsvMaybeParts env2 o2
        (callStep s ⟨env1, o1, path, row1, some ""⟩) path row2 none =
      (callRet s ⟨env1, o1, path, row1, some ""⟩,
       callStep s ⟨env1, o1, path, row1, some ""⟩) := by
  constructor
  · rfl
  · have hl : List.lookup (cacheKeyOf path none)
        (callStep s ⟨env1, o1, path, row1, some ""⟩).cache =
        some (callRet s ⟨env1, o1, path, row1, some ""⟩) :=
      lookup_callStep_self s ⟨env1, o1, path, row1, some ""⟩
    exact loadCsvMaybeParts_hit env2 o2 _ path row2 none hl

/-- The call used by the C3 witness. -/
def callR : Call Nat Nat Nat := ⟨envFail, [], "data.csv", fun n => n, none⟩

/-- C3: single-flight with atomic check-and-insert: each call is one
synchronous state transition, so for a second call whose key equals a
first call's key, from any reachable state, the second call returns the
same promise as the first and changes nothing, the started-sequence
count of that key never exceeds one in any reachable state, and when the
key was fresh the two calls start exactly one fetch sequence. -/
theorem single_flight_atomic {Raw Row Err : Type} (cs : List (Call Raw Row Err))
    (c1 c2 : Call Raw Row Err)
    (hkey : cacheKeyOf c2.path c2.cacheKey = cacheKeyOf c1.path c1.cacheKey) :
    callRet (callStep (runCalls cs) c1) c2 = callRet (runCalls cs) c1 ∧
    callStep (callStep (runCalls cs) c1) c2 = callStep (runCalls cs) c1 ∧
    (callStep (callStep (runCalls cs) c1) c2).started.count
        (cacheKeyOf c1.path c1.cacheKey) ≤ 1 ∧
    (cacheKeyOf c1.path c1.cacheKey ∉ (runCalls cs).started →
      (callStep (callStep (runCalls cs) c1) c2).started.count
        (cacheKeyOf c1.path c1.cacheKey) = 1) := by
  have hl : List.lookup (cacheKeyOf c2.path c2.cacheKey)
      (callStep (runCalls cs) c1).cache = some (callRet (runCalls cs) c1) := by
    rw [hkey]
    exact lookup_callStep_self (runCalls cs) c1
  have hret : callRet (callStep (runCalls cs) c1) c2 = callRet (runCalls cs) c1 := by
    rw [callRet, loadCsvMaybeParts_hit c2.env c2.order _ c2.path c2.row c2.cacheKey hl]
  have hstep : callStep (callStep (runCalls cs) c1) c2 = callStep (runCalls cs) c1 := by
    rw [callStep, loadCsvMaybeParts_hit c2.env c2.order _ c2.path c2.row c2.cacheKey hl]
  have hgood : GoodState (callStep (runCalls cs) c1) :=
    goodState_callStep _ c1 (goodState_runCalls cs)
  refine ⟨hret, hstep, ?_, ?_⟩
  · rw [hstep]
    exact started_count_le_one hgood _
  · intro hnot
    rw [hstep]
    have hg0 := @goodState_runCalls Raw Row Err cs
    have hnone : List.lookup (cacheKeyOf c1.path c1.cacheKey)
        (runCalls cs).cache = none := by
      apply (lookup_none_iff _ _).mpr
      rw [← hg0.1]
      exact hnot
    rw [callStep, loadCsvMaybeParts_miss c1.env c1.order _ c1.path c1.row c1.cacheKey hnone]
    have hzero : (runCalls cs).started.count (cacheKeyOf c1.path c1.cacheKey) = 0 :=
      List.count_eq_zero.mpr hnot
    simp [List.count_cons_self, hzero]

/-- The empty call history used by the C3 witness. -/
def emptyCalls : List (Call Nat Nat Nat) := []

/-- Witness for C3: two identical calls for "data.csv" from the empty
state return the same promise and start exactly one fetch sequence. -/
theorem single_flight_atomic_witness :
    callRet (callStep (runCalls emptyCalls) callR) callR =
      callRet (runCalls emptyCalls) callR ∧
    callStep (callStep (runCalls emptyCalls) callR) callR =
      callStep (runCalls emptyCalls) callR ∧
    (callStep (callStep (runCalls emptyCalls) callR) callR).started.count
        (cacheKeyOf callR.path callR.cacheKey) = 1 :=
  ⟨(single_flight_atomic emptyCalls callR callR rfl).1,
   (single_flight_atomic emptyCalls callR callR rfl).2.1,
   (single_flight_atomic emptyCalls callR callR rfl).2.2.2 (by decide)⟩

/-- C4: once an entry exists for a key, a later call with that key
returns the stored promise and performs no new fetch work (the state,
including the request log, is unchanged), and the entry is never removed
or replaced by any later sequence of calls — so a rejected promise
remains the cached result for its key. -/
theorem cache_entry_idempotent {Raw Row Err : Type} (s : LoaderState Row Err)
    (c : Call Raw Row Err) (r : Except Err (List Row))
    (h : List.lookup (cacheKeyOf c.path c.cacheKey) s.cache = some r) :
    callRet s c = r ∧ callStep s c = s ∧
    ∀ cs : List (Call Raw Row Err),
      List.lookup (cacheKeyOf c.path c.cacheKey) (runFrom s cs).cache = some r := by
  refine ⟨?_, ?_, ?_⟩
  · rw [callRet, loadCsvMaybeParts_hit c.env c.order s c.path c.row c.cacheKey h]
  · rw [callStep, loadCsvMaybeParts_hit c.env c.order s c.path c.row c.cacheKey h]
  · intro cs
    exact lookup_runFrom_preserve s cs _ r h

/-- A state whose cache holds a rejected promise (error 7) for
"data.csv". -/
def stateC4 : LoaderState Nat Nat :=
  ⟨[("data.csv", .error 7)], ["data.csv"], [.csvReq "data.csv"]⟩

/-- The call used by the C4 witness: its network would now serve
"data.csv" successfully, but the cached rejection must win. -/
def callS : Call Nat Nat Nat := ⟨envOk, [], "data.csv", fun n => n, none⟩

/-- Witness for C4: the cached rejected promise for "data.csv" is
returned by a later call even though the network now has the file, the
state is unchanged, and the entry survives further calls. -/
theorem cache_entry_idempotent_witness :
    List.lookup (cacheKeyOf callS.path callS.cacheKey) stateC4.cache =
      some (.error 7) ∧
    callRet stateC4 callS = .error 7 ∧
    callStep stateC4 callS = stateC4 ∧
    List.lookup (cacheKeyOf callS.path callS.cacheKey)
      (runFrom stateC4 [callS]).cache = some (.error 7) :=
  ⟨by decide,
   (cache_entry_idempotent stateC4 callS (.error 7) (by decide)).1,
   (cache_entry_idempotent stateC4 callS (.error 7) (by decide)).2.1,
   (cache_entry_idempotent stateC4 callS (.error 7) (by decide)).2.2 [callS]⟩

example : cacheKeyOf "a" (some "b") = "a::b" := by decide
example : cacheKeyOf "a::b" none = "a::b" := by decide
example : stripCsvExt "data.csv" = "data" := by decide
example : stripCsvExt "DATA.CSV" = "DATA" := by decide
example : stripCsvExt "data.tsv" = "data.tsv" := by decide
example : dirOf "a/b/c.csv" = "a/b/" := by decide
example : dirOf "c.csv" = "" := by decide
